import Mathlib

/-!
Verification development for the GeneCall repository (CGC_parser.py and
CGC_main.py).  The per-caller normalizer functions of CGC_parser.py are
embedded shallowly: the outcome of each compiled regular expression on one
input line is represented either by running a faithful Lean parser on the
raw line (for the anchored patterns of ProcessPhate and ProcessProdigal's
sco branch) or by a per-line match record carrying the captured groups
(for the unanchored patterns of ProcessGenemark, ProcessGlimmer and
ProcessRAST); the loop bodies are then transcribed statement by statement
from the source.  The driver CGC_main.py's argument dispatch and pipeline
call order are embedded as well.
-/

namespace GeneCall

/-- A value written through one `%s` slot of the output format string:
either a Python int or a Python string at the moment of the write. -/
inductive CellVal where
  | i (n : ℤ)
  | s (v : String)
deriving DecidableEq

/-- One tab-separated record written to the normalizer output stream, in the
field order `geneNo, strand, leftEnd, rightEnd, length, contig` used by all
five Process functions of CGC_parser.py.  The `length` slot is a Python int
on every write path, so it is carried as an integer directly. -/
structure OutRecord where
  geneNo   : CellVal
  strand   : String
  leftEnd  : CellVal
  rightEnd : CellVal
  length   : ℤ
  contig   : String
deriving DecidableEq

/-- Value of a nonempty all-digit character list read as a decimal numeral
(what Python's `int` does on such a string). -/
def natOfDigits (l : List Char) : ℕ :=
  l.foldl (fun a c => 10 * a + (c.toNat - 48)) 0

/-- Decimal value of a character list when it is a nonempty all-digit string,
`none` otherwise. -/
def digitVal? (l : List Char) : Option ℕ :=
  if l ≠ [] ∧ l.all (fun c => c.isDigit) then some (natOfDigits l) else none

/-- Numeric denotation of an emitted cell: an int cell denotes itself, a
string cell denotes the value of its decimal digits when it is a nonempty
all-digit string. -/
def cellInt? : CellVal → Option ℤ
  | .i n => some n
  | .s v =>
    match digitVal? v.data with
    | some n => some (n : ℤ)
    | none => none

/-- Configuration flag of CGC_parser.py line 53: `GLIMMER3 = True`. -/
def GLIMMER3 : Bool := true

/-- Configuration flag of CGC_parser.py line 54: `PRODIGAL_sco = True`. -/
def PRODIGAL_sco : Bool := true

/-- Result of `re.search(p_comment, line)` with `p_comment = '^#'`:
the line starts with the character `#`. -/
def isCommentLine (line : String) : Bool :=
  match line.data with
  | c :: _ => c = '#'
  | [] => false

/-- Accumulated effect of one normalizer function run: the records written to
the output stream, the lines written to the log file, and whether the
unknown-strand error branch fired (that branch writes an error line and
returns early from the function). -/
structure NormOut where
  out    : List OutRecord
  log    : List String
  halted : Bool
deriving DecidableEq

/-! ### ProcessGenemark (CGC_parser.py lines 159-198) -/

/-- Captured groups of the GeneMark data-line pattern
`\s+(\d+)\s+([+-])\s+([\d\>\<]+)\s+(\d+)\s+(\d+)\s+\d+`: gene number
(group 1, digits, taken through `int`), strand (group 2, one character of
the class `[+-]`), left end (group 3, kept as a string over digits and the
symbols `<` `>`), right end (group 4, kept as a string of digits), and
length (group 5, digits, taken through `int`). -/
structure GmData where
  geneNo : ℕ
  strand : Char
  leftS  : String
  rightS : String
  len    : ℕ
deriving DecidableEq

/-- Match outcome of one input line against the three GeneMark patterns
(comment, contig line, data line); ProcessGenemark inspects them in this
order with `if`/`elif`. -/
structure GmMatch where
  isComment : Bool
  contigM   : Option String
  dataM     : Option GmData
deriving DecidableEq

/-- CGC_parser.py lines 182-185: remove one leading `>` or `<` symbol from a
coordinate string. -/
def stripLeadSym (s : String) : String :=
  match s.data with
  | c :: rest => if c = '>' ∨ c = '<' then ⟨rest⟩ else s
  | [] => s

/-- Loop of ProcessGenemark over the match outcomes of the input lines,
threading the `contig` variable (initially the empty string). -/
def processGenemarkAux : List GmMatch → String → NormOut
  | [], _ => ⟨[], [], false⟩
  | m :: rest, contig =>
    if m.isComment then processGenemarkAux rest contig
    else
      match m.contigM with
      | some c => processGenemarkAux rest c
      | none =>
        match m.dataM with
        | some d =>
          let le1 := stripLeadSym d.leftS
          let re1 := stripLeadSym d.rightS
          if d.strand ≠ '+' ∧ d.strand ≠ '-' then
            ⟨[], ["ERROR: unknown strand designator, " ++ String.singleton d.strand], true⟩
          else
            let contig1 := if contig = "" then "unknown" else contig
            let res := processGenemarkAux rest contig1
            ⟨⟨.i d.geneNo, String.singleton d.strand, .s le1, .s re1, (d.len : ℤ), contig1⟩ :: res.out,
              res.log, res.halted⟩
        | none => processGenemarkAux rest contig

/-- ProcessGenemark on a whole file (the `contig` variable starts empty). -/
def processGenemark (ms : List GmMatch) : NormOut := processGenemarkAux ms ""

/-! ### ProcessGlimmer (CGC_parser.py lines 200-250) -/

/-- Captured groups of either Glimmer data-line pattern: gene number
(group 1, digits, through `int`), left (group 2, digits, through `int`),
right (group 3, digits, through `int`), strand (group 4, one character of
the class `[+-]`). -/
structure GlData where
  geneNo : ℕ
  left   : ℕ
  right  : ℕ
  strand : Char
deriving DecidableEq

/-- Match outcome of one input line against the Glimmer patterns, inspected
comment / contig line / data line with `if`/`elif`. -/
structure GlMatch where
  isComment : Bool
  contigM   : Option String
  dataM     : Option GlData
deriving DecidableEq

/-- Loop of ProcessGlimmer, parameterized by the GLIMMER3 flag, threading the
`contig` variable.  The strand dispatch computes `leftEnd`/`rightEnd`
exactly as lines 223-234 of the source; an unrecognized strand takes the
error branch that writes and returns. -/
def processGlimmerAux (glimmer3 : Bool) : List GlMatch → String → NormOut
  | [], _ => ⟨[], [], false⟩
  | m :: rest, contig =>
    if m.isComment then processGlimmerAux glimmer3 rest contig
    else
      match m.contigM with
      | some c => processGlimmerAux glimmer3 rest c
      | none =>
        match m.dataM with
        | some d =>
          let ends : Option (ℤ × ℤ) :=
            if d.strand = '+' then
              some ((d.left : ℤ), if glimmer3 then (d.right : ℤ) else (d.right : ℤ) + 3)
            else if d.strand = '-' then
              some ((if glimmer3 then (d.right : ℤ) else (d.right : ℤ) - 3), (d.left : ℤ))
            else none
          match ends with
          | none => ⟨[], ["ERROR: unknown strand designator, " ++ String.singleton d.strand], true⟩
          | some (leftEnd, rightEnd) =>
            let length := rightEnd - leftEnd + 1
            let contig1 := if contig = "" then "unknown" else contig
            let res := processGlimmerAux glimmer3 rest contig1
            ⟨⟨.i d.geneNo, String.singleton d.strand, .i leftEnd, .i rightEnd, length, contig1⟩ :: res.out,
              res.log, res.halted⟩
        | none => processGlimmerAux glimmer3 rest contig

/-- ProcessGlimmer on a whole file under the configured flag. -/
def processGlimmer (ms : List GlMatch) : NormOut := processGlimmerAux GLIMMER3 ms ""

/-! ### ProcessRAST (CGC_parser.py lines 252-274, RAST_GFF3 branch) -/

/-- Captured groups of the RAST gff3 data-line pattern
`(.*)\t.*\tCDS\t(\d+)\t(\d+)\t\.\t([+-])\t\d\t.*`: contig (group 1, string),
left end (group 2, digits, through `int`), right end (group 3, digits,
through `int`), strand (group 4, one character of the class `[+-]`). -/
structure RaData where
  contig : String
  left   : ℕ
  right  : ℕ
  strand : Char
deriving DecidableEq

/-- Match outcome of one input line against the RAST patterns (comment, then
data line). -/
structure RaMatch where
  isComment : Bool
  dataM     : Option RaData
deriving DecidableEq

/-- Loop of ProcessRAST (gff3 branch), threading the `count` variable. -/
def processRastAux : List RaMatch → ℕ → List OutRecord
  | [], _ => []
  | m :: rest, count =>
    if m.isComment then processRastAux rest count
    else
      match m.dataM with
      | some d =>
        let count1 := count + 1
        let leftEnd : ℤ := d.left
        let rightEnd : ℤ := d.right
        let length := rightEnd - leftEnd + 1
        ⟨.i count1, String.singleton d.strand, .i leftEnd, .i rightEnd, length, d.contig⟩ ::
          processRastAux rest count1
      | none => processRastAux rest count

/-- ProcessRAST on a whole file (`count` starts at 0; the non-gff3 branch of
the source is `pass`, and the RAST_GFF3 flag is `True`). -/
def processRast (ms : List RaMatch) : List OutRecord := processRastAux ms 0

/-! ### ProcessProdigal (CGC_parser.py lines 276-314, PRODIGAL_sco branch)

The sco data-line pattern `^>(\d+)_(\d+)_(\d+)_([+-])` is anchored, so it is
implemented here as a real parser over the raw line.  Note that in the
source, the `OUT.write` at line 292 sits at loop level, outside the
`elif match_dataLine` block: it runs for every non-comment line, matched or
not, emitting whatever the record variables currently hold. -/

/-- Parser for the anchored Prodigal sco data-line pattern
`^>(\d+)_(\d+)_(\d+)_([+-])`: yields group 1 as the matched digit string
(the source keeps `geneNo` as a string here) and groups 2-4 as values. -/
def prodigalScoParse (line : String) : Option (String × ℕ × ℕ × Char) :=
  match line.data with
  | '>' :: cs =>
    let d1 := cs.takeWhile (fun c => c.isDigit)
    let r1 := cs.dropWhile (fun c => c.isDigit)
    match d1, r1 with
    | [], _ => none
    | _ :: _, '_' :: cs2 =>
      let d2 := cs2.takeWhile (fun c => c.isDigit)
      let r2 := cs2.dropWhile (fun c => c.isDigit)
      match d2, r2 with
      | [], _ => none
      | _ :: _, '_' :: cs3 =>
        let d3 := cs3.takeWhile (fun c => c.isDigit)
        let r3 := cs3.dropWhile (fun c => c.isDigit)
        match d3, r3 with
        | [], _ => none
        | _ :: _, '_' :: c :: _ =>
          if c = '+' ∨ c = '-' then some (⟨d1⟩, natOfDigits d2, natOfDigits d3, c) else none
        | _, _ => none
      | _, _ => none
    | _, _ => none
  | _ => none

/-- The record variables of ProcessProdigal, initialized at line 277 and
reassigned only inside the `elif match_dataLine` block (`contig` stays
`"unknown"` throughout the sco branch). -/
structure ProdVars where
  geneNo   : CellVal
  strand   : String
  leftEnd  : CellVal
  rightEnd : CellVal
  length   : ℤ
deriving DecidableEq

/-- Initial values from line 277:
`geneNo = 0; strand = ''; leftEnd = ''; rightEnd = ''; length = 0`. -/
def prodInit : ProdVars := ⟨.i 0, "", .s "", .s "", 0⟩

/-- Loop of ProcessProdigal (sco branch).  A comment line is skipped; every
other line first updates the record variables if it matches the data
pattern, then unconditionally writes a record (the write sits outside the
match block in the source). -/
def processProdigalScoAux : List String → ProdVars → List OutRecord
  | [], _ => []
  | line :: rest, v =>
    if isCommentLine line then processProdigalScoAux rest v
    else
      let v1 := match prodigalScoParse line with
        | some (g1, l, r, c) =>
          (⟨.s g1, String.singleton c, .i l, .i r, (r : ℤ) - (l : ℤ) + 1⟩ : ProdVars)
        | none => v
      ⟨v1.geneNo, v1.strand, v1.leftEnd, v1.rightEnd, v1.length, "unknown"⟩ ::
        processProdigalScoAux rest v1

/-- ProcessProdigal (sco branch) on a whole file. -/
def processProdigalSco (lines : List String) : List OutRecord :=
  processProdigalScoAux lines prodInit

/-! ### ProcessPhate (CGC_parser.py lines 316-338)

The data-line pattern `^(\d+)\t(\d+)\t([+-])` is anchored, so it is
implemented as a real parser over the raw line. -/

/-- Parser for the anchored PhATE data-line pattern `^(\d+)\t(\d+)\t([+-])`. -/
def phateParse (line : String) : Option (ℕ × ℕ × Char) :=
  let cs := line.data
  let d1 := cs.takeWhile (fun c => c.isDigit)
  let r1 := cs.dropWhile (fun c => c.isDigit)
  match d1, r1 with
  | [], _ => none
  | _ :: _, '\t' :: cs2 =>
    let d2 := cs2.takeWhile (fun c => c.isDigit)
    let r2 := cs2.dropWhile (fun c => c.isDigit)
    match d2, r2 with
    | [], _ => none
    | _ :: _, '\t' :: c :: _ =>
      if c = '+' ∨ c = '-' then some (natOfDigits d1, natOfDigits d2, c) else none
    | _, _ => none
  | _, _ => none

/-- Loop of ProcessPhate, threading the `count` variable.  On a matched line:
on strand `'+'` the first group is `leftEnd` and the second `rightEnd`,
otherwise the assignment is reversed; `length = abs(rightEnd-leftEnd)+1`
(line 334), and `contig` stays `"unknown"`. -/
def processPhateAux : List String → ℕ → List OutRecord
  | [], _ => []
  | line :: rest, count =>
    if isCommentLine line then processPhateAux rest count
    else
      match phateParse line with
      | some (g1, g2, c) =>
        let count1 := count + 1
        let leftEnd : ℤ := if c = '+' then g1 else g2
        let rightEnd : ℤ := if c = '+' then g2 else g1
        let length := |rightEnd - leftEnd| + 1
        ⟨.i count1, String.singleton c, .i leftEnd, .i rightEnd, length, "unknown"⟩ ::
          processPhateAux rest count1
      | none => processPhateAux rest count

/-- ProcessPhate on a whole file (`count` starts at 0). -/
def processPhate (lines : List String) : List OutRecord := processPhateAux lines 0

/-! ### CGC_parser.py top-level file handling (lines 130-155 and 350-355)

The first two `open` calls each set `fileError` on failure and line 146
checks it and exits with status 0 after logging.  The optional user-output
`open` (lines 150-155) also sets `fileError` on failure, but nothing checks
it afterwards: the later `USER_OUT.write` at line 354 then raises an
uncaught NameError, because `USER_OUT` was never bound. -/

/-- Terminal outcome of a run: a deliberate `exit(0)` after logging, normal
completion, or an exception escaping uncaught. -/
inductive RunEnd where
  | exitZero (log : List String)
  | completed
  | uncaught (exn : String)
deriving DecidableEq

/-- Control flow of the CGC_parser.py module after argument handling, as a
function of which of the three `open` calls succeed. -/
def parserRun (inOpenOk outOpenOk userProvided userOpenOk : Bool) : RunEnd :=
  let fileError := !inOpenOk || !outOpenOk
  if fileError then .exitZero ["ERROR: problem with input file"]
  else
    -- lines 150-155 set fileError again on a failed USER_OUT open,
    -- but no later statement tests it
    let _fileError2 := userProvided && !userOpenOk
    if userProvided && !userOpenOk then .uncaught "NameError: USER_OUT is not defined"
    else .completed

/-- The input-file loop of CGC_main.py (lines 115-122): each `open(geneFile)`
is unguarded, so the first unreadable file raises an uncaught IOError. -/
def mainFileLoop : List Bool → RunEnd
  | [] => .completed
  | ok :: rest => if ok then mainFileLoop rest else .uncaught "IOError"

/-! ### CGC_main.py argument dispatch (lines 74-102) -/

/-- ASCII lowercasing of one character (what `str.lower` does on the ASCII
range relevant here). -/
def lowerChar (c : Char) : Char :=
  if 'A' ≤ c ∧ c ≤ 'Z' then Char.ofNat (c.toNat + 32) else c

/-- ASCII lowercasing of a string. -/
def lowerStr (s : String) : String := ⟨s.data.map lowerChar⟩

/-- Whether `pat` occurs at the head of `text`. -/
def leadsWith : List Char → List Char → Bool
  | [], _ => true
  | _ :: _, [] => false
  | p :: ps, c :: cs => p = c && leadsWith ps cs

/-- Whether `pat` occurs anywhere in the text (the semantics of
`re.search` for a pattern with no metacharacters). -/
def containsPat (pat : List Char) : List Char → Bool
  | [] => leadsWith pat []
  | c :: cs => leadsWith pat (c :: cs) || containsPat pat cs

/-- `re.search(pat, s)` succeeds for a plain-word pattern. -/
def hasSub (s pat : String) : Bool := containsPat pat.data s.data

/-- The informational message printed before an early `exit(0)`. -/
inductive InfoMsg where
  | helpMsg | inputMsg | usageMsg | infoMsg
deriving DecidableEq

/-- Outcome of CGC_main.py's argument handling: an early `exit(0)` after
printing a message, or proceeding to the pipeline with `fileSet`. -/
inductive ArgOutcome where
  | exitZero (msg : InfoMsg)
  | run (fileSet : List String)
deriving DecidableEq

/-- CGC_main.py lines 74-102: with at least one argument, the lowercased
first argument is searched in turn for `help`, `input`, `usage`, `detail`,
`info`; each hit prints a message and exits with status 0 (`detail` and
`info` both print INFO_STRING).  Otherwise `fileSet = sys.argv[1:]`.  With
no arguments the usage message is printed and the process exits 0. -/
def cgcMainArgs : List String → ArgOutcome
  | _prog :: a1 :: rest =>
    let l := lowerStr a1
    if hasSub l "help" then .exitZero .helpMsg
    else if hasSub l "input" then .exitZero .inputMsg
    else if hasSub l "usage" then .exitZero .usageMsg
    else if hasSub l "detail" then .exitZero .infoMsg
    else if hasSub l "info" then .exitZero .infoMsg
    else .run (a1 :: rest)
  | _ => .exitZero .usageMsg

/-! ### CGC_main.py pipeline call order (lines 104-162) -/

/-- One operation invocation of the driver pipeline; the index records which
input file / call set the operation was invoked for. -/
inductive PipeOp where
  | addGeneCalls (i : ℕ)
  | sortGeneCalls (i : ℕ)
  | merge (i : ℕ)
  | compare
  | identifyCommonCore
  | printReport
deriving DecidableEq

/-- The sequence of operation invocations CGC_main.py performs for `n` input
files: `AddGeneCalls` once per file (lines 115-122), then `SortGeneCalls`
once per call set (lines 142-143), then `Merge` once per call set into the
single Comparison instance (lines 157-159), then `Compare`,
`IdentifyCommonCore`, `PrintReport` once each (lines 160-162). -/
def mainPipeline (n : ℕ) : List PipeOp :=
  (List.range n).map .addGeneCalls ++ (List.range n).map .sortGeneCalls ++
    (List.range n).map .merge ++ [.compare, .identifyCommonCore, .printReport]

/-! ### Emitted-record coordinate properties -/

/-- Every record in the list has `leftEnd <= rightEnd`, read through the
numeric denotation of the emitted cells. -/
def recLRall (l : List OutRecord) : Prop :=
  ∀ r ∈ l, ∀ a b : ℤ, cellInt? r.leftEnd = some a → cellInt? r.rightEnd = some b → a ≤ b

/-- Every record in the list has `length = rightEnd - leftEnd + 1`, read
through the numeric denotation of the emitted cells. -/
def recLenall (l : List OutRecord) : Prop :=
  ∀ r ∈ l, ∀ a b : ℤ, cellInt? r.leftEnd = some a → cellInt? r.rightEnd = some b →
    r.length = b - a + 1

/-- A PhATE input line is properly oriented: if it matches the data pattern,
its first coordinate is the smaller one on strand `'+'` and the larger one
on strand `'-'`. -/
def phateOriented (line : String) : Bool :=
  match phateParse line with
  | some (g1, g2, c) => if c = '+' then decide (g1 ≤ g2) else decide (g2 ≤ g1)
  | none => true

/-- A Prodigal sco input line is properly oriented: if it matches the data
pattern, its left coordinate is at most its right coordinate. -/
def prodOriented (line : String) : Bool :=
  match prodigalScoParse line with
  | some (_, l, r, _) => decide (l ≤ r)
  | none => true

/-- A GeneMark line-match is properly oriented: if the data pattern matched
and both coordinate groups (after symbol stripping) are plain numerals,
the left one is at most the right one. -/
def gmOriented (m : GmMatch) : Bool :=
  match m.dataM with
  | some d =>
    match digitVal? (stripLeadSym d.leftS).data, digitVal? (stripLeadSym d.rightS).data with
    | some l, some r => decide (l ≤ r)
    | _, _ => true
  | none => true

/-- A GeneMark line-match has a consistent length group: if the data pattern
matched and both coordinate groups are plain numerals, the length group
equals `right - left + 1`. -/
def gmLenOk (m : GmMatch) : Bool :=
  match m.dataM with
  | some d =>
    match digitVal? (stripLeadSym d.leftS).data, digitVal? (stripLeadSym d.rightS).data with
    | some l, some r => decide ((d.len : ℤ) = (r : ℤ) - (l : ℤ) + 1)
    | _, _ => true
  | none => true

/-- A Glimmer line-match is properly oriented: if the data pattern matched,
`left <= right` on strand `'+'` and `right <= left` on strand `'-'`. -/
def glOriented (m : GlMatch) : Bool :=
  match m.dataM with
  | some d =>
    if d.strand = '+' then decide (d.left ≤ d.right)
    else if d.strand = '-' then decide (d.right ≤ d.left)
    else true
  | none => true

/-- A RAST line-match is properly oriented: if the data pattern matched,
`left <= right`. -/
def raOriented (m : RaMatch) : Bool :=
  match m.dataM with
  | some d => decide (d.left ≤ d.right)
  | none => true

theorem genemarkAux_LR (ms : List GmMatch) :
    ∀ contig : String, (∀ m ∈ ms, gmOriented m = true) →
      recLRall (processGenemarkAux ms contig).out := by
  induction ms with
  | nil => intro contig _ r hr; simp [processGenemarkAux] at hr
  | cons m rest ih =>
    intro contig hall
    obtain ⟨mc, mcont, mdata⟩ := m
    have h1 : gmOriented ⟨mc, mcont, mdata⟩ = true := hall _ (List.mem_cons_self _ _)
    have h2 : ∀ m ∈ rest, gmOriented m = true := fun m hm => hall m (List.mem_cons_of_mem _ hm)
    cases mc with
    | true => simpa [processGenemarkAux] using ih contig h2
    | false =>
      cases mcont with
      | some c => simpa [processGenemarkAux] using ih c h2
      | none =>
        cases mdata with
        | none => simpa [processGenemarkAux] using ih contig h2
        | some d =>
          by_cases hs : d.strand ≠ '+' ∧ d.strand ≠ '-'
          · intro r hr
            simp [processGenemarkAux, hs] at hr
          · intro r hr
            simp [processGenemarkAux, hs] at hr
            rcases hr with rfl | hr'
            · intro a b ha hb
              cases hdl : digitVal? (stripLeadSym d.leftS).data with
              | none => simp [cellInt?, hdl] at ha
              | some xl =>
                cases hdr : digitVal? (stripLeadSym d.rightS).data with
                | none => simp [cellInt?, hdr] at hb
                | some yr =>
                  simp [cellInt?, hdl] at ha
                  simp [cellInt?, hdr] at hb
                  simp [gmOriented, hdl, hdr] at h1
                  omega
            · exact ih _ h2 r hr'

theorem glimmerAux_LR (g3 : Bool) (ms : List GlMatch) :
    ∀ contig : String, (∀ m ∈ ms, glOriented m = true) →
      recLRall (processGlimmerAux g3 ms contig).out := by
  induction ms with
  | nil => intro contig _ r hr; simp [processGlimmerAux] at hr
  | cons m rest ih =>
    intro contig hall
    obtain ⟨mc, mcont, mdata⟩ := m
    have h1 : glOriented ⟨mc, mcont, mdata⟩ = true := hall _ (List.mem_cons_self _ _)
    have h2 : ∀ m ∈ rest, glOriented m = true := fun m hm => hall m (List.mem_cons_of_mem _ hm)
    cases mc with
    | true => simpa [processGlimmerAux] using ih contig h2
    | false =>
      cases mcont with
      | some c => simpa [processGlimmerAux] using ih c h2
      | none =>
        cases mdata with
        | none => simpa [processGlimmerAux] using ih contig h2
        | some d =>
          by_cases hp : d.strand = '+'
          · intro r hr
            simp [processGlimmerAux, hp] at hr
            rcases hr with rfl | hr'
            · intro a b ha hb
              simp only [cellInt?, Option.some.injEq] at ha hb
              simp [glOriented, hp] at h1
              cases g3 <;> simp at hb <;> omega
            · exact ih _ h2 r hr'
          · by_cases hm : d.strand = '-'
            · intro r hr
              simp [processGlimmerAux, hp, hm] at hr
              rcases hr with rfl | hr'
              · intro a b ha hb
                simp only [cellInt?, Option.some.injEq] at ha hb
                simp [glOriented, hp, hm] at h1
                cases g3 <;> simp at ha <;> omega
              · exact ih _ h2 r hr'
            · intro r hr
              simp [processGlimmerAux, hp, hm] at hr

theorem rastAux_LR (ms : List RaMatch) :
    ∀ count : ℕ, (∀ m ∈ ms, raOriented m = true) → recLRall (processRastAux ms count) := by
  induction ms with
  | nil => intro count _ r hr; simp [processRastAux] at hr
  | cons m rest ih =>
    intro count hall
    obtain ⟨mc, mdata⟩ := m
    have h1 : raOriented ⟨mc, mdata⟩ = true := hall _ (List.mem_cons_self _ _)
    have h2 : ∀ m ∈ rest, raOriented m = true := fun m hm => hall m (List.mem_cons_of_mem _ hm)
    cases mc with
    | true => simpa [processRastAux] using ih count h2
    | false =>
      cases mdata with
      | none => simpa [processRastAux] using ih count h2
      | some d =>
        intro r hr
        simp [processRastAux] at hr
        rcases hr with rfl | hr'
        · intro a b ha hb
          simp only [cellInt?, Option.some.injEq] at ha hb
          simp [raOriented] at h1
          omega
        · exact ih _ h2 r hr'

theorem phateAux_LR (lines : List String) :
    ∀ count : ℕ, (∀ l ∈ lines, phateOriented l = true) →
      recLRall (processPhateAux lines count) := by
  induction lines with
  | nil => intro count _ r hr; simp [processPhateAux] at hr
  | cons line rest ih =>
    intro count hall
    have h1 : phateOriented line = true := hall _ (List.mem_cons_self _ _)
    have h2 : ∀ l ∈ rest, phateOriented l = true := fun l hl => hall l (List.mem_cons_of_mem _ hl)
    by_cases hc : isCommentLine line = true
    · simpa [processPhateAux, hc] using ih count h2
    · cases hp : phateParse line with
      | none => simpa [processPhateAux, hc, hp] using ih count h2
      | some t =>
        obtain ⟨g1, g2, c⟩ := t
        intro r hr
        simp [processPhateAux, hc, hp] at hr
        rcases hr with rfl | hr'
        · intro a b ha hb
          simp only [cellInt?, Option.some.injEq] at ha hb
          by_cases hcp : c = '+'
          · simp [phateOriented, hp, hcp] at h1
            simp [hcp] at ha hb
            omega
          · simp [phateOriented, hp, hcp] at h1
            simp [hcp] at ha hb
            omega
        · exact ih _ h2 r hr'

/-- `leftEnd <= rightEnd` as an invariant of the Prodigal record variables. -/
def varsLR (v : ProdVars) : Prop :=
  ∀ a b : ℤ, cellInt? v.leftEnd = some a → cellInt? v.rightEnd = some b → a ≤ b

theorem prodigalAux_LR (lines : List String) :
    ∀ v : ProdVars, varsLR v → (∀ l ∈ lines, prodOriented l = true) →
      recLRall (processProdigalScoAux lines v) := by
  induction lines with
  | nil => intro v _ _ r hr; simp [processProdigalScoAux] at hr
  | cons line rest ih =>
    intro v hv hall
    have h1 : prodOriented line = true := hall _ (List.mem_cons_self _ _)
    have h2 : ∀ l ∈ rest, prodOriented l = true := fun l hl => hall l (List.mem_cons_of_mem _ hl)
    by_cases hc : isCommentLine line = true
    · simpa [processProdigalScoAux, hc] using ih v hv h2
    · cases hp : prodigalScoParse line with
      | none =>
        intro r hr
        simp [processProdigalScoAux, hc, hp] at hr
        rcases hr with rfl | hr'
        · intro a b ha hb
          exact hv a b ha hb
        · exact ih v hv h2 r hr'
      | some t =>
        obtain ⟨g1, l0, r0, c⟩ := t
        have hv1 : varsLR ⟨.s g1, String.singleton c, .i l0, .i r0, (r0 : ℤ) - (l0 : ℤ) + 1⟩ := by
          intro a b ha hb
          simp only [cellInt?, Option.some.injEq] at ha hb
          simp [prodOriented, hp] at h1
          omega
        intro r hr
        simp [processProdigalScoAux, hc, hp] at hr
        rcases hr with rfl | hr'
        · intro a b ha hb
          exact hv1 a b ha hb
        · exact ih _ hv1 h2 r hr'


/-- C1 (counterexample): the invariant `leftEnd <= rightEnd` does not hold
for every record emitted by the normalizer over arbitrary input: ProcessPhate
on the single line `5<TAB>2<TAB>+` emits `leftEnd = 5`, `rightEnd = 2`. -/
theorem leftEnd_le_rightEnd_cex :
    ¬ ((∀ lines : List String, recLRall (processPhate lines)) ∧
       (∀ lines : List String, recLRall (processProdigalSco lines)) ∧
       (∀ ms : List GmMatch, recLRall (processGenemark ms).out) ∧
       (∀ (g3 : Bool) (ms : List GlMatch), recLRall (processGlimmerAux g3 ms "").out) ∧
       (∀ ms : List RaMatch, recLRall (processRast ms))) := by
  intro h
  have hrec : (⟨.i 1, "+", .i 5, .i 2, 4, "unknown"⟩ : OutRecord) ∈
      processPhate ["5\t2\t+"] := by decide
  have hle := h.1 ["5\t2\t+"] _ hrec 5 2 (by decide) (by decide)
  exact absurd hle (by decide)

/-- C1 (amended): every record emitted by any of the five normalizer
functions satisfies `leftEnd <= rightEnd` provided each matched data line of
the input is properly oriented — for PhATE the first coordinate is the
smaller on `'+'` and the larger on `'-'`; for Prodigal `left <= right`; for
GeneMark the (numeral) left group is at most the right group; for Glimmer
`left <= right` on `'+'` and `right <= left` on `'-'`; for RAST
`left <= right`. -/
theorem oriented_leftEnd_le_rightEnd
    (g3 : Bool) (phLines prLines : List String) (gmMs : List GmMatch)
    (glMs : List GlMatch) (raMs : List RaMatch)
    (hph : ∀ l ∈ phLines, phateOriented l = true)
    (hpr : ∀ l ∈ prLines, prodOriented l = true)
    (hgm : ∀ m ∈ gmMs, gmOriented m = true)
    (hgl : ∀ m ∈ glMs, glOriented m = true)
    (hra : ∀ m ∈ raMs, raOriented m = true) :
    recLRall (processPhate phLines) ∧ recLRall (processProdigalSco prLines) ∧
      recLRall (processGenemark gmMs).out ∧ recLRall (processGlimmerAux g3 glMs "").out ∧
      recLRall (processRast raMs) := by
  refine ⟨phateAux_LR phLines 0 hph, prodigalAux_LR prLines prodInit ?_ hpr,
    genemarkAux_LR gmMs "" hgm, glimmerAux_LR g3 glMs "" hgl, rastAux_LR raMs 0 hra⟩
  intro a b ha hb
  have hnone : cellInt? prodInit.leftEnd = none := by decide
  rw [hnone] at ha
  exact Option.noConfusion ha

/-- C1 (witness): the amended statement applied to concrete well-oriented
inputs for all five normalizer functions. -/
theorem oriented_leftEnd_le_rightEnd_wit :
    recLRall (processPhate ["1\t9\t+"]) ∧ recLRall (processProdigalSco [">1_4_8_+"]) ∧
      recLRall (processGenemark [⟨false, none, some ⟨1, '+', "3", "9", 7⟩⟩]).out ∧
      recLRall (processGlimmerAux true [⟨false, none, some ⟨1, 10, 20, '+'⟩⟩] "").out ∧
      recLRall (processRast [⟨false, some ⟨"c1", 4, 8, '+'⟩⟩]) :=
  oriented_leftEnd_le_rightEnd true _ _ _ _ _ (by decide) (by decide) (by decide) (by decide)
    (by decide)

theorem genemarkAux_len (ms : List GmMatch) :
    ∀ contig : String, (∀ m ∈ ms, gmLenOk m = true) →
      recLenall (processGenemarkAux ms contig).out := by
  induction ms with
  | nil => intro contig _ r hr; simp [processGenemarkAux] at hr
  | cons m rest ih =>
    intro contig hall
    obtain ⟨mc, mcont, mdata⟩ := m
    have h1 : gmLenOk ⟨mc, mcont, mdata⟩ = true := hall _ (List.mem_cons_self _ _)
    have h2 : ∀ m ∈ rest, gmLenOk m = true := fun m hm => hall m (List.mem_cons_of_mem _ hm)
    cases mc with
    | true => simpa [processGenemarkAux] using ih contig h2
    | false =>
      cases mcont with
      | some c => simpa [processGenemarkAux] using ih c h2
      | none =>
        cases mdata with
        | none => simpa [processGenemarkAux] using ih contig h2
        | some d =>
          by_cases hs : d.strand ≠ '+' ∧ d.strand ≠ '-'
          · intro r hr
            simp [processGenemarkAux, hs] at hr
          · intro r hr
            simp [processGenemarkAux, hs] at hr
            rcases hr with rfl | hr'
            · intro a b ha hb
              cases hdl : digitVal? (stripLeadSym d.leftS).data with
              | none => simp [cellInt?, hdl] at ha
              | some xl =>
                cases hdr : digitVal? (stripLeadSym d.rightS).data with
                | none => simp [cellInt?, hdr] at hb
                | some yr =>
                  simp [cellInt?, hdl] at ha
                  simp [cellInt?, hdr] at hb
                  simp [gmLenOk, hdl, hdr] at h1
                  dsimp only
                  omega
            · exact ih _ h2 r hr'

theorem glimmerAux_len (g3 : Bool) (ms : List GlMatch) :
    ∀ contig : String, recLenall (processGlimmerAux g3 ms contig).out := by
  induction ms with
  | nil => intro contig r hr; simp [processGlimmerAux] at hr
  | cons m rest ih =>
    intro contig
    obtain ⟨mc, mcont, mdata⟩ := m
    cases mc with
    | true => simpa [processGlimmerAux] using ih contig
    | false =>
      cases mcont with
      | some c => simpa [processGlimmerAux] using ih c
      | none =>
        cases mdata with
        | none => simpa [processGlimmerAux] using ih contig
        | some d =>
          by_cases hp : d.strand = '+'
          · intro r hr
            simp [processGlimmerAux, hp] at hr
            rcases hr with rfl | hr'
            · intro a b ha hb
              simp only [cellInt?, Option.some.injEq] at ha hb
              dsimp only
              cases g3 <;> simp at ha hb ⊢ <;> omega
            · exact ih _ r hr'
          · by_cases hm : d.strand = '-'
            · intro r hr
              simp [processGlimmerAux, hp, hm] at hr
              rcases hr with rfl | hr'
              · intro a b ha hb
                simp only [cellInt?, Option.some.injEq] at ha hb
                dsimp only
                cases g3 <;> simp at ha hb ⊢ <;> omega
              · exact ih _ r hr'
            · intro r hr
              simp [processGlimmerAux, hp, hm] at hr

theorem rastAux_len (ms : List RaMatch) :
    ∀ count : ℕ, recLenall (processRastAux ms count) := by
  induction ms with
  | nil => intro count r hr; simp [processRastAux] at hr
  | cons m rest ih =>
    intro count
    obtain ⟨mc, mdata⟩ := m
    cases mc with
    | true => simpa [processRastAux] using ih count
    | false =>
      cases mdata with
      | none => simpa [processRastAux] using ih count
      | some d =>
        intro r hr
        simp [processRastAux] at hr
        rcases hr with rfl | hr'
        · intro a b ha hb
          simp only [cellInt?, Option.some.injEq] at ha hb
          dsimp only
          omega
        · exact ih _ r hr'

theorem phateAux_len (lines : List String) :
    ∀ count : ℕ, (∀ l ∈ lines, phateOriented l = true) →
      recLenall (processPhateAux lines count) := by
  induction lines with
  | nil => intro count _ r hr; simp [processPhateAux] at hr
  | cons line rest ih =>
    intro count hall
    have h1 : phateOriented line = true := hall _ (List.mem_cons_self _ _)
    have h2 : ∀ l ∈ rest, phateOriented l = true := fun l hl => hall l (List.mem_cons_of_mem _ hl)
    by_cases hc : isCommentLine line = true
    · simpa [processPhateAux, hc] using ih count h2
    · cases hp : phateParse line with
      | none => simpa [processPhateAux, hc, hp] using ih count h2
      | some t =>
        obtain ⟨g1, g2, c⟩ := t
        intro r hr
        simp [processPhateAux, hc, hp] at hr
        rcases hr with rfl | hr'
        · intro a b ha hb
          simp only [cellInt?, Option.some.injEq] at ha hb
          by_cases hcp : c = '+'
          · simp [phateOriented, hp, hcp] at h1
            dsimp only
            simp only [hcp, if_true] at ha hb ⊢
            rw [abs_of_nonneg (by omega : (0 : ℤ) ≤ (g2 : ℤ) - (g1 : ℤ))]
            omega
          · simp [phateOriented, hp, hcp] at h1
            dsimp only
            simp only [hcp, if_false] at ha hb ⊢
            rw [abs_of_nonneg (by omega : (0 : ℤ) ≤ (g1 : ℤ) - (g2 : ℤ))]
            omega
        · exact ih _ h2 r hr'

/-- `length = rightEnd - leftEnd + 1` as an invariant of the Prodigal record
variables. -/
def varsLen (v : ProdVars) : Prop :=
  ∀ a b : ℤ, cellInt? v.leftEnd = some a → cellInt? v.rightEnd = some b → v.length = b - a + 1

theorem prodigalAux_len (lines : List String) :
    ∀ v : ProdVars, varsLen v → recLenall (processProdigalScoAux lines v) := by
  induction lines with
  | nil => intro v _ r hr; simp [processProdigalScoAux] at hr
  | cons line rest ih =>
    intro v hv
    by_cases hc : isCommentLine line = true
    · simpa [processProdigalScoAux, hc] using ih v hv
    · cases hp : prodigalScoParse line with
      | none =>
        intro r hr
        simp [processProdigalScoAux, hc, hp] at hr
        rcases hr with rfl | hr'
        · intro a b ha hb
          exact hv a b ha hb
        · exact ih v hv r hr'
      | some t =>
        obtain ⟨g1, l0, r0, c⟩ := t
        have hv1 : varsLen ⟨.s g1, String.singleton c, .i l0, .i r0, (r0 : ℤ) - (l0 : ℤ) + 1⟩ := by
          intro a b ha hb
          simp only [cellInt?, Option.some.injEq] at ha hb
          dsimp only
          omega
        intro r hr
        simp [processProdigalScoAux, hc, hp] at hr
        rcases hr with rfl | hr'
        · intro a b ha hb
          exact hv1 a b ha hb
        · exact ih _ hv1 r hr'

/-- C2 (counterexample): the emitted length field is not always
`rightEnd - leftEnd + 1`: ProcessGenemark copies the length group straight
from the input line, so a data line with coordinates 1..6 and length group
999 is emitted with length 999. -/
theorem length_eq_span_cex :
    ¬ ((∀ ms : List GmMatch, recLenall (processGenemark ms).out) ∧
       (∀ lines : List String, recLenall (processPhate lines)) ∧
       (∀ lines : List String, recLenall (processProdigalSco lines)) ∧
       (∀ (g3 : Bool) (ms : List GlMatch), recLenall (processGlimmerAux g3 ms "").out) ∧
       (∀ ms : List RaMatch, recLenall (processRast ms))) := by
  intro h
  have hrec : (⟨.i 1, "+", .s "1", .s "6", 999, "unknown"⟩ : OutRecord) ∈
      (processGenemark [⟨false, none, some ⟨1, '+', "1", "6", 999⟩⟩]).out := by decide
  have hlen := h.1 [⟨false, none, some ⟨1, '+', "1", "6", 999⟩⟩] _ hrec 1 6 (by decide) (by decide)
  exact absurd hlen (by decide)

/-- C2 (amended): every record emitted by Glimmer, RAST and Prodigal (sco)
satisfies `length = rightEnd - leftEnd + 1` unconditionally; for PhATE it
holds when each matched data line is properly oriented; for GeneMark the
length field is copied from the input, so it holds when the input's length
group already equals `right - left + 1`. -/
theorem length_eq_span_of_consistent
    (g3 : Bool) (phLines prLines : List String) (gmMs : List GmMatch)
    (glMs : List GlMatch) (raMs : List RaMatch)
    (hph : ∀ l ∈ phLines, phateOriented l = true)
    (hgm : ∀ m ∈ gmMs, gmLenOk m = true) :
    recLenall (processPhate phLines) ∧ recLenall (processProdigalSco prLines) ∧
      recLenall (processGenemark gmMs).out ∧ recLenall (processGlimmerAux g3 glMs "").out ∧
      recLenall (processRast raMs) := by
  refine ⟨phateAux_len phLines 0 hph, prodigalAux_len prLines prodInit ?_,
    genemarkAux_len gmMs "" hgm, glimmerAux_len g3 glMs "", rastAux_len raMs 0⟩
  intro a b ha hb
  have hnone : cellInt? prodInit.leftEnd = none := by decide
  rw [hnone] at ha
  exact Option.noConfusion ha

/-- C2 (witness): the amended statement applied to concrete consistent
inputs for all five normalizer functions. -/
theorem length_eq_span_of_consistent_wit :
    recLenall (processPhate ["1\t9\t+"]) ∧ recLenall (processProdigalSco [">1_4_8_-"]) ∧
      recLenall (processGenemark [⟨false, none, some ⟨1, '+', "3", "9", 7⟩⟩]).out ∧
      recLenall (processGlimmerAux true [⟨false, none, some ⟨1, 10, 20, '+'⟩⟩] "").out ∧
      recLenall (processRast [⟨false, some ⟨"c1", 4, 8, '+'⟩⟩]) :=
  length_eq_span_of_consistent true _ _ _ _ _ (by decide) (by decide)

/-- C3 (code_bug evaluation): ProcessProdigal's record write sits at loop
level, outside the data-line match block, so the non-comment, non-matching
line `hello` is written out with the initial variable values — its strand
field is the empty string, neither `'+'` nor `'-'`. -/
theorem prodigal_emits_empty_strand :
    (processProdigalSco ["hello"]).map OutRecord.strand = [""] := by decide

/-- C4 (counterexample): a data line that fails to parse is not logged:
ProcessGenemark on a single line matching none of its patterns leaves the
log empty, refuting "logs the error and skips that line". -/
theorem malformed_not_logged_cex :
    ¬ (∀ ms : List GmMatch,
        (∃ m ∈ ms, m.isComment = false ∧ m.contigM = none ∧ m.dataM = none) →
          (processGenemark ms).log ≠ []) := by
  intro h
  have hmem : (⟨false, none, none⟩ : GmMatch) ∈ [(⟨false, none, none⟩ : GmMatch)] :=
    List.mem_cons_self _ _
  exact h [⟨false, none, none⟩] ⟨⟨false, none, none⟩, hmem, rfl, rfl, rfl⟩ (by decide)

/-- C4 (amended): a data line matching no pattern produces no log entry and
no record, and processing of the remaining lines continues unchanged, for
GeneMark, Glimmer, RAST and PhATE; for Prodigal (sco) such a line is not
skipped — one fall-through record holding the current variable values is
written — but processing of the remaining lines still continues.  In no
case does a malformed line abort the rest of the file. -/
theorem malformed_line_continues
    (m : GmMatch) (hm1 : m.isComment = false) (hm2 : m.contigM = none) (hm3 : m.dataM = none)
    (g : GlMatch) (hg1 : g.isComment = false) (hg2 : g.contigM = none) (hg3 : g.dataM = none)
    (ra : RaMatch) (hr1 : ra.isComment = false) (hr2 : ra.dataM = none)
    (phLine : String) (hp1 : isCommentLine phLine = false) (hp2 : phateParse phLine = none)
    (prLine : String) (hq1 : isCommentLine prLine = false)
    (hq2 : prodigalScoParse prLine = none)
    (g3 : Bool) (gmRest : List GmMatch) (glRest : List GlMatch) (raRest : List RaMatch)
    (phRest prRest : List String) (contig contig2 : String) (count count2 : ℕ) (v : ProdVars) :
    processGenemarkAux (m :: gmRest) contig = processGenemarkAux gmRest contig ∧
    processGlimmerAux g3 (g :: glRest) contig2 = processGlimmerAux g3 glRest contig2 ∧
    processRastAux (ra :: raRest) count = processRastAux raRest count ∧
    processPhateAux (phLine :: phRest) count2 = processPhateAux phRest count2 ∧
    processProdigalScoAux (prLine :: prRest) v =
      ⟨v.geneNo, v.strand, v.leftEnd, v.rightEnd, v.length, "unknown"⟩ ::
        processProdigalScoAux prRest v := by
  refine ⟨?_, ?_, ?_, ?_, ?_⟩
  · simp [processGenemarkAux, hm1, hm2, hm3]
  · simp [processGlimmerAux, hg1, hg2, hg3]
  · simp [processRastAux, hr1, hr2]
  · simp [processPhateAux, hp1, hp2]
  · simp [processProdigalScoAux, hq1, hq2]

/-- C4 (witness): the amended statement applied to one concrete unparseable
line for each normalizer. -/
theorem malformed_line_continues_wit :
    processGenemarkAux [⟨false, none, none⟩] "" = processGenemarkAux [] "" ∧
    processGlimmerAux true [⟨false, none, none⟩] "" = processGlimmerAux true [] "" ∧
    processRastAux [⟨false, none⟩] 0 = processRastAux [] 0 ∧
    processPhateAux ["hello"] 0 = processPhateAux [] 0 ∧
    processProdigalScoAux ["hello"] prodInit =
      ⟨prodInit.geneNo, prodInit.strand, prodInit.leftEnd, prodInit.rightEnd, prodInit.length,
        "unknown"⟩ :: processProdigalScoAux [] prodInit :=
  malformed_line_continues ⟨false, none, none⟩ rfl rfl rfl ⟨false, none, none⟩ rfl rfl rfl
    ⟨false, none⟩ rfl rfl "hello" (by decide) (by decide) "hello" (by decide) (by decide)
    true [] [] [] [] [] "" "" 0 0 prodInit

/-- C5 (code_bug evaluation): ProcessProdigal writes one record for the
single input line `hello` although that line matches neither the comment
pattern nor the data-line pattern: emitted records do not correspond
one-to-one to matched data lines. -/
theorem prodigal_record_without_match :
    (processProdigalSco ["hello"]).length = 1 ∧
      (["hello"].countP fun l => (prodigalScoParse l).isSome) = 0 := by decide

/-- C6 (code_bug evaluation): exceptions do escape the system.  With an
unwritable user-provided output path, CGC_parser.py catches the IOError and
sets fileError but never re-checks it, and the later USER_OUT header write
raises an uncaught NameError; CGC_main.py opens each input file unguarded,
so the first unreadable input raises an uncaught IOError. -/
theorem io_failure_uncaught :
    parserRun true true true false = .uncaught "NameError: USER_OUT is not defined" ∧
      mainFileLoop [true, false] = .uncaught "IOError" := by decide

/-- C7 (counterexample): invoked with exactly one file path (fewer than the
required two), the driver does not print a usage message and exit: it
proceeds into the pipeline with that single file. -/
theorem single_file_runs_cex :
    ¬ (∀ prog a1 : String, ∃ m, cgcMainArgs [prog, a1] = .exitZero m) := by
  intro h
  obtain ⟨m, hm⟩ := h "CGC_main.py" "x.calls"
  have hrun : cgcMainArgs ["CGC_main.py", "x.calls"] = .run ["x.calls"] := by decide
  rw [hrun] at hm
  exact ArgOutcome.noConfusion hm

/-- C7 (amended): when no argument at all is given, the driver prints the
usage message and exits with status zero; but given exactly one file path
(still fewer than the two the help text requires) whose lowercased form
contains none of the keywords `help`, `input`, `usage`, `detail`, `info`,
the driver does not exit early: it proceeds into the pipeline with that
single file. -/
theorem usage_exit_zero_args_single_file_runs (prog a1 : String)
    (h1 : hasSub (lowerStr a1) "help" = false)
    (h2 : hasSub (lowerStr a1) "input" = false)
    (h3 : hasSub (lowerStr a1) "usage" = false)
    (h4 : hasSub (lowerStr a1) "detail" = false)
    (h5 : hasSub (lowerStr a1) "info" = false) :
    cgcMainArgs [prog] = .exitZero .usageMsg ∧ cgcMainArgs [] = .exitZero .usageMsg ∧
      cgcMainArgs [prog, a1] = .run [a1] := by
  refine ⟨rfl, rfl, ?_⟩
  simp [cgcMainArgs, h1, h2, h3, h4, h5]

/-- C7 (witness): the amended statement applied to the single keyword-free
file path `x.calls`. -/
theorem usage_exit_zero_args_single_file_runs_wit :
    cgcMainArgs ["CGC_main.py"] = .exitZero .usageMsg ∧
      cgcMainArgs [] = .exitZero .usageMsg ∧
      cgcMainArgs ["CGC_main.py", "x.calls"] = .run ["x.calls"] :=
  usage_exit_zero_args_single_file_runs "CGC_main.py" "x.calls" (by decide) (by decide)
    (by decide) (by decide) (by decide)

/-- Predicate picking out AddGeneCalls invocations. -/
def isAddOp : PipeOp → Bool
  | .addGeneCalls _ => true
  | _ => false

/-- Predicate picking out SortGeneCalls invocations. -/
def isSortOp : PipeOp → Bool
  | .sortGeneCalls _ => true
  | _ => false

/-- Predicate picking out Merge invocations. -/
def isMergeOp : PipeOp → Bool
  | .merge _ => true
  | _ => false

/-- Predicate picking out Compare invocations. -/
def isCompareOp : PipeOp → Bool
  | .compare => true
  | _ => false

/-- Predicate picking out IdentifyCommonCore invocations. -/
def isIdentifyOp : PipeOp → Bool
  | .identifyCommonCore => true
  | _ => false

/-- Predicate picking out PrintReport invocations. -/
def isReportOp : PipeOp → Bool
  | .printReport => true
  | _ => false

theorem before_of_append {α : Type} (xs ys : List α) (a b : α)
    (ha : a ∉ xs) (hb : b ∉ ys) (i j : ℕ)
    (hi : (xs ++ ys).get? i = some a) (hj : (xs ++ ys).get? j = some b) : j < i := by
  have hxi : xs.length ≤ i := by
    by_contra hlt
    push_neg at hlt
    rw [List.get?_append hlt] at hi
    exact ha (List.get?_mem hi)
  have hyj : j < xs.length := by
    by_contra hge
    push_neg at hge
    rw [List.get?_append_right hge] at hj
    exact hb (List.get?_mem hj)
  omega

/-- C8: for `n` input files the driver invokes AddGeneCalls exactly `n`
times, SortGeneCalls exactly `n` times, Merge exactly `n` times, and
Compare, IdentifyCommonCore and PrintReport exactly once each; moreover
every Merge precedes the Compare, and IdentifyCommonCore precedes the
PrintReport. -/
theorem pipeline_order (n : ℕ) :
    (mainPipeline n).countP isAddOp = n ∧ (mainPipeline n).countP isSortOp = n ∧
    (mainPipeline n).countP isMergeOp = n ∧ (mainPipeline n).countP isCompareOp = 1 ∧
    (mainPipeline n).countP isIdentifyOp = 1 ∧ (mainPipeline n).countP isReportOp = 1 ∧
    (∀ i j k, (mainPipeline n).get? i = some .compare →
      (mainPipeline n).get? j = some (.merge k) → j < i) ∧
    (∀ i j, (mainPipeline n).get? i = some .printReport →
      (mainPipeline n).get? j = some .identifyCommonCore → j < i) := by
  refine ⟨?_, ?_, ?_, ?_, ?_, ?_, ?_, ?_⟩
  · simp [mainPipeline, List.countP_append, List.countP_map, List.countP_cons,
      Function.comp_def, isAddOp, List.countP_true, List.countP_false]
  · simp [mainPipeline, List.countP_append, List.countP_map, List.countP_cons,
      Function.comp_def, isSortOp, List.countP_true, List.countP_false]
  · simp [mainPipeline, List.countP_append, List.countP_map, List.countP_cons,
      Function.comp_def, isMergeOp, List.countP_true, List.countP_false]
  · simp [mainPipeline, List.countP_append, List.countP_map, List.countP_cons,
      Function.comp_def, isCompareOp, List.countP_true, List.countP_false]
  · simp [mainPipeline, List.countP_append, List.countP_map, List.countP_cons,
      Function.comp_def, isIdentifyOp, List.countP_true, List.countP_false]
  · simp [mainPipeline, List.countP_append, List.countP_map, List.countP_cons,
      Function.comp_def, isReportOp, List.countP_true, List.countP_false]
  · intro i j k hi hj
    refine before_of_append
      ((List.range n).map PipeOp.addGeneCalls ++ (List.range n).map PipeOp.sortGeneCalls ++
        (List.range n).map PipeOp.merge)
      [PipeOp.compare, PipeOp.identifyCommonCore, PipeOp.printReport]
      PipeOp.compare (PipeOp.merge k) ?_ (by simp) i j hi hj
    simp [List.mem_append]
  · intro i j hi hj
    have e : mainPipeline n =
        (((List.range n).map PipeOp.addGeneCalls ++ (List.range n).map PipeOp.sortGeneCalls ++
          (List.range n).map PipeOp.merge) ++ [PipeOp.compare, PipeOp.identifyCommonCore]) ++
          [PipeOp.printReport] := by
      simp [mainPipeline, List.append_assoc]
    rw [e] at hi hj
    refine before_of_append _ [PipeOp.printReport] PipeOp.printReport PipeOp.identifyCommonCore
      ?_ (by simp) i j hi hj
    simp [List.mem_append]

/-- C8 (witness): the pipeline for two input files, with the ordering
conjuncts instantiated at the Compare invocation (index 6) and the second
Merge invocation (index 5). -/
theorem pipeline_order_wit :
    (mainPipeline 2).countP isAddOp = 2 ∧ 5 < 6 :=
  ⟨(pipeline_order 2).1,
   (pipeline_order 2).2.2.2.2.2.2.1 6 5 1 (by decide) (by decide)⟩

/-- C9: if the lowercased first argument of the driver contains any of the
substrings `help`, `input`, `usage`, `detail`, `info`, the driver prints an
informational message and exits with status zero, and never reaches the
pipeline — so a file path such as `my_input.calls` is never processed. -/
theorem keyword_first_arg_exits (prog a1 : String) (rest : List String)
    (h : hasSub (lowerStr a1) "help" = true ∨ hasSub (lowerStr a1) "input" = true ∨
      hasSub (lowerStr a1) "usage" = true ∨ hasSub (lowerStr a1) "detail" = true ∨
      hasSub (lowerStr a1) "info" = true) :
    (∃ m, cgcMainArgs (prog :: a1 :: rest) = .exitZero m) ∧
      ∀ fs, cgcMainArgs (prog :: a1 :: rest) ≠ .run fs := by
  have hexit : ∃ m, cgcMainArgs (prog :: a1 :: rest) = .exitZero m := by
    cases h1 : hasSub (lowerStr a1) "help" with
    | true => exact ⟨.helpMsg, by simp [cgcMainArgs, h1]⟩
    | false =>
      cases h2 : hasSub (lowerStr a1) "input" with
      | true => exact ⟨.inputMsg, by simp [cgcMainArgs, h1, h2]⟩
      | false =>
        cases h3 : hasSub (lowerStr a1) "usage" with
        | true => exact ⟨.usageMsg, by simp [cgcMainArgs, h1, h2, h3]⟩
        | false =>
          cases h4 : hasSub (lowerStr a1) "detail" with
          | true => exact ⟨.infoMsg, by simp [cgcMainArgs, h1, h2, h3, h4]⟩
          | false =>
            cases h5 : hasSub (lowerStr a1) "info" with
            | true => exact ⟨.infoMsg, by simp [cgcMainArgs, h1, h2, h3, h4, h5]⟩
            | false => simp [h1, h2, h3, h4, h5] at h
  obtain ⟨m, hm⟩ := hexit
  refine ⟨⟨m, hm⟩, fun fs hfs => ?_⟩
  rw [hm] at hfs
  exact ArgOutcome.noConfusion hfs

/-- C9 (witness): the statement applied to the first argument
`my_input.calls`, whose lowercase form contains `input`. -/
theorem keyword_first_arg_exits_wit :
    ∃ m, cgcMainArgs ["CGC_main.py", "my_input.calls"] = .exitZero m :=
  (keyword_first_arg_exits "CGC_main.py" "my_input.calls" []
    (Or.inr (Or.inl (by decide)))).1

/-- C10: the record ProcessGlimmer emits for a matched data line with groups
`(g, left, right, strand)`: on strand `'+'`, `leftEnd = left` and
`rightEnd = right` when GLIMMER3 is true, `rightEnd = right + 3` when it is
false; on strand `'-'`, `rightEnd = left` and `leftEnd = right` when GLIMMER3
is true, `leftEnd = right - 3` when it is false; in all cases the emitted
length is recomputed as `rightEnd - leftEnd + 1`. -/
theorem glimmer_flag_coords (g3 : Bool) (g l r : ℕ) (c : Char) (rest : List GlMatch)
    (contig : String) (hc : c = '+' ∨ c = '-') :
    processGlimmerAux g3 (⟨false, none, some ⟨g, l, r, c⟩⟩ :: rest) contig =
      ⟨⟨.i g, String.singleton c,
         .i (if c = '+' then (l : ℤ) else if g3 then (r : ℤ) else (r : ℤ) - 3),
         .i (if c = '+' then (if g3 then (r : ℤ) else (r : ℤ) + 3) else (l : ℤ)),
         (if c = '+' then (if g3 then (r : ℤ) else (r : ℤ) + 3) else (l : ℤ)) -
           (if c = '+' then (l : ℤ) else if g3 then (r : ℤ) else (r : ℤ) - 3) + 1,
         if contig = "" then "unknown" else contig⟩ ::
        (processGlimmerAux g3 rest (if contig = "" then "unknown" else contig)).out,
       (processGlimmerAux g3 rest (if contig = "" then "unknown" else contig)).log,
       (processGlimmerAux g3 rest (if contig = "" then "unknown" else contig)).halted⟩ := by
  rcases hc with rfl | rfl <;> simp [processGlimmerAux]

/-- C10 (witness): the statement evaluated on one concrete matched line for
each strand, under each GLIMMER3 setting. -/
theorem glimmer_flag_coords_wit :
    processGlimmerAux true [⟨false, none, some ⟨1, 10, 20, '+'⟩⟩] "" =
        ⟨[⟨.i 1, "+", .i 10, .i 20, 11, "unknown"⟩], [], false⟩ ∧
      processGlimmerAux false [⟨false, none, some ⟨2, 10, 30, '-'⟩⟩] "" =
        ⟨[⟨.i 2, "-", .i 27, .i 10, -16, "unknown"⟩], [], false⟩ := by
  constructor
  · simpa using glimmer_flag_coords true 1 10 20 '+' [] "" (Or.inl rfl)
  · simpa using glimmer_flag_coords false 2 10 30 '-' [] "" (Or.inr rfl)

end GeneCall
